import Mathlib

/-!
Verification of the neuros repository's windowing, board-reader, and tone
components against its specification.  Each definition is a shallow embedding
of a concrete Python function from the repository; the theorems settle the
spec's claims about them.
-/

namespace Neuros

/-! ### WindowConfig (src/neuros/window_stream.py)

A frozen dataclass with fields window_ms and overlap_ms (milliseconds,
Python floats; embedded as rationals).  Construction validates the fields
in post-init; convert_to_samples turns them into sample counts using
Python int(), which truncates toward zero — on the non-negative products
arising from a validated config this coincides with the floor. -/

structure WindowConfig where
  window_ms : ℚ
  overlap_ms : ℚ
  deriving DecidableEq, Repr

/-- Embedding of WindowConfig.__post_init__: raises (returns an error)
unless 0 < window_ms, overlap_ms < window_ms and 0 ≤ overlap_ms. -/
def WindowConfig.mk_checked (wms oms : ℚ) : Except String WindowConfig :=
  if wms ≤ 0 then Except.error "Window size must be positive"
  else if oms ≥ wms then Except.error "Overlap must be less than window size"
  else if oms < 0 then Except.error "Overlap must be non-negative"
  else Except.ok ⟨wms, oms⟩

/-- Embedding of WindowConfig.convert_to_samples: window_samples =
int(sample_rate * window_ms / 1000), overlap_samples likewise (int()
truncation, equal to the floor on the non-negative values a validated
config produces), then raises if overlap_samples >= window_samples. -/
def WindowConfig.convert_to_samples (cfg : WindowConfig) (rate : ℕ) :
    Except String (ℤ × ℤ) :=
  let window_samples : ℤ := ⌊(rate : ℚ) * cfg.window_ms / 1000⌋
  let overlap_samples : ℤ := ⌊(rate : ℚ) * cfg.overlap_ms / 1000⌋
  if overlap_samples ≥ window_samples then
    Except.error "Overlap must be less than window size"
  else Except.ok (window_samples, overlap_samples)

/-! ### stream_windows (src/neuros/window_stream.py)

The aggregator is a numpy array of shape (channels, length); every
operation in the loop treats whole columns (one multi-channel sample)
atomically, so a column is embedded as one element of an abstract type α
and the aggregator as a List α.  The inner while-loop of stream_windows
(emit a copy of the first window_samples columns, then drop
needed = window_samples - overlap_samples columns) is drain; the outer
loop over source chunks is stream_windows.  The guard of drain carries
the preconditions 0 < needed ∧ needed ≤ w that convert_to_samples
guarantees (overlap_samples < window_samples) and that make the Python
loop terminate. -/

def drain (w needed : ℕ) (agg : List α) : List (List α) × List α :=
  if _h : 0 < needed ∧ needed ≤ w ∧ w ≤ agg.length then
    (agg.take w :: (drain w needed (agg.drop needed)).1,
     (drain w needed (agg.drop needed)).2)
  else ([], agg)
termination_by agg.length
decreasing_by
  simp only [List.length_drop]
  omega

/-- Embedding of the outer loop of stream_windows over a list of chunks
returned by the source: an empty chunk is skipped (continue), otherwise it
is concatenated onto the aggregator and the inner while-loop (drain) runs. -/
def stream_windows (w needed : ℕ) : List (List α) → List α → List (List α)
  | [], _ => []
  | ch :: chs, agg =>
    if ch.isEmpty then stream_windows w needed chs agg
    else
      let p := drain w needed (agg ++ ch)
      p.1 ++ stream_windows w needed chs p.2

/-- Bundle of invariants of one run of the inner while-loop (drain):
every emitted window has length w; consecutive emitted windows satisfy the
overlap identity; the leftover aggregator is shorter than w; the last
emitted window's trailing o columns survive at the front of the leftover
aggregator; the first emitted window is the first w columns of the input
aggregator; and when nothing is emitted the aggregator is untouched. -/
def DrainInv (w o : ℕ) (agg : List α) (p : List (List α) × List α) : Prop :=
  (∀ win ∈ p.1, win.length = w) ∧
  List.Chain' (fun a b => a.drop (w - o) = b.take o) p.1 ∧
  p.2.length < w ∧
  (∀ win ∈ p.1.getLast?, win.drop (w - o) = p.2.take o ∧ o ≤ p.2.length) ∧
  (∀ win ∈ p.1.head?, win = agg.take w) ∧
  (p.1 = [] → p.2 = agg)

/-! ### stream_windows error handling (src/neuros/window_stream.py)

The body of the outer loop sits in a try/except block whose handler is
`except Exception`: it catches every error the source raises — the
repository draws no distinction between transient hiccups and fatal
errors such as a device disconnect, both being Exception subclasses —
logs it, and continues the loop.  The embedding makes each pull's result
explicit as an Except value. -/

inductive SourceErr
  | transient
  | fatal
  deriving DecidableEq, Repr

/-- Embedding of the outer loop of stream_windows with the outcome of each
source pull made explicit: an error outcome of either kind is logged and
skipped (continue), an empty chunk is skipped, and a non-empty chunk is
concatenated onto the aggregator before the inner while-loop runs. -/
def stream_windows_pulls (w needed : ℕ) :
    List (Except SourceErr (List α)) → List α → List (List α)
  | [], _ => []
  | Except.error _ :: ps, agg => stream_windows_pulls w needed ps agg
  | Except.ok ch :: ps, agg =>
    if ch.isEmpty then stream_windows_pulls w needed ps agg
    else
      (drain w needed (agg ++ ch)).1 ++
        stream_windows_pulls w needed ps (drain w needed (agg ++ ch)).2

/-- Chunks of the successful pulls, in order. -/
def okChunks (pulls : List (Except SourceErr (List α))) : List (List α) :=
  pulls.filterMap fun r => r.toOption

/-! ### BoardReader rolling buffer (src/src/neuros/neuroboard.py) -/

/-- Embedding of BoardReader.get_num_samples:
int(sampling_rate * window.total_seconds()) + 1.  Python int() truncates
toward zero, which on this non-negative product equals the floor. -/
def get_num_samples (rate window_seconds : ℚ) : ℤ :=
  ⌊rate * window_seconds⌋ + 1

/-- Embedding of the numpy slice l[-n:]: the last n elements of l (all of
l when l has fewer than n elements). -/
def lastN (n : ℕ) (l : List α) : List α := l.drop (l.length - n)

/-- Embedding of one iteration of the buffer update in
BoardReader._read_data: self.rdata = np.append(self.rdata, rdata,
axis=0)[-num_samples:].  An element of α is one sample row (all channels
of one sample). -/
def read_step (n : ℕ) (buf chunk : List α) : List α := lastN n (buf ++ chunk)

/-- Embedding of the polling loop's effect on the rolling buffer across a
sequence of polled chunks. -/
def read_loop (n : ℕ) (buf : List α) (chunks : List (List α)) : List α :=
  chunks.foldl (read_step n) buf

/-! ### BoardReader.get_eeg_power (src/src/neuros/neuroboard.py)

The reader keeps a dirty flag (the _update event), the raw rolling buffer
rdata (rows = samples, columns = board channels) and the cached power
table pdata (rows = the six Bands, columns = EEG channels).  The power
spectral density and band-power computations are the external
SpectralAnalyzer (brainflow's DataFilter) and are opaque parameters of
the embedding: σ is the type of a power spectral density. -/

inductive Band
  | delta
  | theta
  | alpha
  | beta
  | gamma
  | all
  deriving DecidableEq, Repr

/-- Frequency ranges of the Bands enum. -/
def Band.range : Band → ℚ × ℚ
  | Band.delta => (1/2, 4)
  | Band.theta => (4, 8)
  | Band.alpha => (8, 13)
  | Band.beta => (13, 30)
  | Band.gamma => (30, 50)
  | Band.all => (1/2, 50)

/-- Iteration order of the Bands enum. -/
def bands_list : List Band :=
  [Band.delta, Band.theta, Band.alpha, Band.beta, Band.gamma, Band.all]

structure BoardState where
  update : Bool
  rdata : List (List ℚ)
  pdata : List (List ℚ)
  deriving DecidableEq, Repr

/-- Embedding of the even truncation in get_eeg_power:
size = size - 1 if size % 2 else size. -/
def even_size (n : ℕ) : ℕ := if n % 2 = 1 then n - 1 else n

/-- Column c of the row-major raw-data matrix: rdata[:, c]. -/
def column (rdata : List (List ℚ)) (c : ℕ) : List ℚ :=
  rdata.map (fun row => row.getD c 0)

/-- Embedding of BoardReader.get_eeg_power.  When the dirty flag is unset
the cached pdata is returned and the state is untouched; otherwise one
power spectral density per EEG channel is computed from the first
even_size num_samples rows of that channel's column of rdata, the band
power of every channel × band pair is tabulated, the fresh table is
stored, the dirty flag is cleared, and the fresh table is returned. -/
def get_eeg_power {σ : Type} (get_psd : List ℚ → σ)
    (get_band_power : σ → Band → ℚ) (channels : List ℕ) (num_samples : ℕ)
    (s : BoardState) : List (List ℚ) × BoardState :=
  if s.update = false then (s.pdata, s)
  else
    let size := even_size num_samples
    let psds := channels.map (fun c => get_psd ((column s.rdata c).take size))
    let fresh := bands_list.map (fun b => psds.map (fun p => get_band_power p b))
    (fresh, { update := false, rdata := s.rdata, pdata := fresh })

/-! ### BoardReader thread lifecycle (src/src/neuros/neuroboard.py)

start_reading constructs a new Thread targeting _read_data and starts it,
with no check of the current state; stop_reading sets the stop event and
joins self.thread.  The embedding tracks the identities of the spawned
polling threads: next_thread numbers them, running lists the ones whose
loop has not been joined away, thread is the self.thread attribute
(none while the attribute does not exist yet — Python would raise
AttributeError on access). -/

structure ReaderLife where
  next_thread : ℕ
  running : List ℕ
  thread : Option ℕ
  stop_event : Bool
  deriving DecidableEq, Repr

/-- Fresh reader as left by BoardReader.__init__: no thread attribute,
stop event clear. -/
def ReaderLife.init : ReaderLife := ⟨0, [], none, false⟩

/-- Embedding of BoardReader.start_reading: unconditionally constructs
and starts one new polling thread and stores its handle in self.thread,
overwriting whatever handle was there. -/
def start_reading (s : ReaderLife) : ReaderLife :=
  { next_thread := s.next_thread + 1
    running := s.next_thread :: s.running
    thread := some s.next_thread
    stop_event := s.stop_event }

/-- Embedding of BoardReader.stop_reading: set the stop event, then join
self.thread.  Accessing self.thread on a reader that was never started
raises AttributeError; joining a thread that has already exited returns
immediately (erasing an absent id is a no-op). -/
def stop_reading (s : ReaderLife) : Except String ReaderLife :=
  match s.thread with
  | none =>
    Except.error "AttributeError: BoardReader object has no attribute thread"
  | some t =>
    Except.ok { s with stop_event := true, running := s.running.erase t }

/-! ### Tone (src/src/neuros/tone.py)

Tone.__init__ creates the playback thread without starting it;
Tone.start sends noteon, sets the playing event and starts the thread;
Tone.stop sends noteoff, clears the playing event and joins the thread —
joining a thread that was never started raises RuntimeError.  The loop
_play_note starts from vmax = 0.0 and on each iteration reads a power
value v, sets vmax = max(v, vmax), computes vol = 64 + 64 * (v / vmax)
and pushes int(vol) to the synthesizer, unconditionally. -/

structure ToneLife where
  thread_started : Bool
  playing : Bool
  noteoff_count : ℕ
  deriving DecidableEq, Repr

/-- Fresh Tone as left by __init__. -/
def ToneLife.init : ToneLife := ⟨false, false, 0⟩

/-- Embedding of Tone.start: noteon, set the playing event, start the
thread. -/
def tone_start (s : ToneLife) : ToneLife :=
  { s with thread_started := true, playing := true }

/-- Embedding of Tone.stop: noteoff and the clearing of the playing event
happen unconditionally; the subsequent join raises RuntimeError exactly
when the thread was never started (the returned Bool records whether the
call raised). -/
def tone_stop (s : ToneLife) : ToneLife × Bool :=
  ({ s with playing := false, noteoff_count := s.noteoff_count + 1 },
   !s.thread_started)

/-- Embedding of the normalization in Tone._play_note over a sequence of
observed power values, starting from the given vmax (0.0 at loop entry):
each iteration updates vmax = max(v, vmax) and computes the ratio
v / vmax.  When vmax is zero the division is Python's ZeroDivisionError:
the loop raises and produces nothing further; the Bool records whether
that happened. -/
def play_ratios : List ℚ → ℚ → List ℚ × Bool
  | [], _ => ([], false)
  | v :: vs, vmax =>
    if max v vmax = 0 then ([], true)
    else
      ((v / max v vmax) :: (play_ratios vs (max v vmax)).1,
       (play_ratios vs (max v vmax)).2)

/-- Running maxima of Tone._play_note: the value of vmax after each
iteration. -/
def play_maxes : List ℚ → ℚ → List ℚ
  | [], _ => []
  | v :: vs, vmax => max v vmax :: play_maxes vs (max v vmax)

/-- Embedding of the volume computation and push in Tone._play_note:
vol = 64 + 64 * (v / vmax), pushed to the synthesizer as int(vol)
(truncation toward zero, equal to the floor on these non-negative
values). -/
def play_control (v vmax : ℚ) : ℤ := ⌊64 + 64 * (v / vmax)⌋

/-- Control values Tone._play_note pushes to the synthesizer over a
sequence of observed power values: one push per iteration,
unconditionally; a ZeroDivisionError stops the loop before its push. -/
def tone_pushes : List ℚ → ℚ → List ℤ
  | [], _ => []
  | v :: vs, vmax =>
    if max v vmax = 0 then []
    else play_control v (max v vmax) :: tone_pushes vs (max v vmax)

/-! ### ToneGenerator.set_amplitude (src/neuros/tone_generator.py) -/

structure ToneGen where
  is_playing : Bool
  current_velocity : ℤ
  deriving DecidableEq, Repr

/-- Embedding of ToneGenerator.set_amplitude: starts the tone when not
playing, computes velocity = int(value * 127) (truncation, equal to the
floor on the documented amplitude domain 0.0 to 1.0), and sends the cc
and stores the velocity only when it differs from the stored one.  The
Bool reports whether a cc was sent. -/
def set_amplitude (s : ToneGen) (value : ℚ) : ToneGen × Bool :=
  if ⌊value * 127⌋ ≠ s.current_velocity then
    ({ is_playing := true, current_velocity := ⌊value * 127⌋ }, true)
  else ({ is_playing := true, current_velocity := s.current_velocity }, false)

theorem drain_spec {α : Type} (w o : ℕ) (h : o < w) (agg : List α) :
    DrainInv w o agg (drain w (w - o) agg) := by
  suffices H : ∀ n (agg : List α), agg.length ≤ n →
      DrainInv w o agg (drain w (w - o) agg) from H agg.length agg le_rfl
  intro n
  induction n with
  | zero =>
    intro agg hlen
    rw [drain, dif_neg (by omega)]
    exact ⟨by simp, by simp, by show agg.length < w; omega, by simp, by simp,
      fun _ => rfl⟩
  | succ n ih =>
    intro agg hlen
    by_cases hw : w ≤ agg.length
    · have hg : 0 < w - o ∧ w - o ≤ w ∧ w ≤ agg.length := ⟨by omega, by omega, hw⟩
      have hlen' : (agg.drop (w - o)).length ≤ n := by
        simp only [List.length_drop]; omega
      have IH := ih (agg.drop (w - o)) hlen'
      rw [drain, dif_pos hg]
      obtain ⟨ih1, ih2, ih3, ih4, ih5, ih6⟩ := IH
      have hover : (agg.take w).drop (w - o) = (agg.drop (w - o)).take o := by
        rw [List.drop_take]
        congr 1
        omega
      refine ⟨?_, ?_, ih3, ?_, ?_, ?_⟩
      · intro win hwin
        rcases List.mem_cons.mp hwin with hwin | hwin
        · rw [hwin]; exact List.length_take_of_le hw
        · exact ih1 win hwin
      · rw [List.chain'_cons']
        refine ⟨?_, ih2⟩
        intro y hy
        rw [ih5 y hy, hover, List.take_take, min_eq_left (by omega)]
      · cases hq : (drain w (w - o) (agg.drop (w - o))).1 with
        | nil =>
          intro win hwin
          simp only [List.getLast?_singleton, Option.mem_def,
            Option.some.injEq] at hwin
          subst hwin
          have h2 := ih6 hq
          rw [h2, hover]
          refine ⟨rfl, ?_⟩
          simp only [List.length_drop]
          omega
        | cons x xs =>
          intro win hwin
          simp only [List.getLast?_cons_cons] at hwin
          rw [← hq] at hwin
          exact ih4 win hwin
      · intro win hwin
        simp only [List.head?_cons, Option.mem_def, Option.some.injEq] at hwin
        exact hwin.symm
      · intro hcontra
        simp at hcontra
    · rw [drain, dif_neg (by omega)]
      exact ⟨by simp, by simp, by show agg.length < w; omega, by simp, by simp,
        fun _ => rfl⟩

/-- Invariant of the outer loop: the first window a run of stream_windows
emits (if any) starts with the leading o columns of the current
aggregator, provided the aggregator already holds at least o columns. -/
theorem stream_head {α : Type} (w o : ℕ) (h : o < w) (chunks : List (List α)) :
    ∀ (agg : List α), o ≤ agg.length →
      ∀ win ∈ (stream_windows w (w - o) chunks agg).head?, win.take o = agg.take o := by
  induction chunks with
  | nil => simp [stream_windows]
  | cons ch chs ih =>
    intro agg hagg win hwin
    rw [stream_windows] at hwin
    by_cases hch : ch.isEmpty
    · rw [if_pos hch] at hwin
      exact ih agg hagg win hwin
    · rw [if_neg hch] at hwin
      have hd := drain_spec w o h (agg ++ ch)
      cases hq : (drain w (w - o) (agg ++ ch)).1 with
      | nil =>
        simp only [hq, List.nil_append] at hwin
        have h2 := hd.2.2.2.2.2 hq
        have hagg' : o ≤ (drain w (w - o) (agg ++ ch)).2.length := by
          rw [h2]
          simp only [List.length_append]
          omega
        have hkey := ih (drain w (w - o) (agg ++ ch)).2 hagg' win hwin
        rw [hkey, h2, List.take_append_of_le_length hagg]
      | cons x xs =>
        simp only [hq, List.cons_append, List.head?_cons, Option.mem_def,
          Option.some.injEq] at hwin
        have hx : x = (agg ++ ch).take w := by
          have h5 := hd.2.2.2.2.1 x
          rw [hq] at h5
          exact h5 (by simp)
        subst hwin
        rw [hx, List.take_take, min_eq_left (by omega),
          List.take_append_of_le_length hagg]

/-- Invariant of the outer loop: every window stream_windows emits has
length w, and consecutive windows satisfy the overlap identity. -/
theorem stream_spec {α : Type} (w o : ℕ) (h : o < w) (chunks : List (List α)) :
    ∀ (agg : List α),
      (∀ win ∈ stream_windows w (w - o) chunks agg, win.length = w) ∧
      List.Chain' (fun a b => a.drop (w - o) = b.take o)
        (stream_windows w (w - o) chunks agg) := by
  induction chunks with
  | nil => simp [stream_windows]
  | cons ch chs ih =>
    intro agg
    rw [stream_windows]
    by_cases hch : ch.isEmpty
    · rw [if_pos hch]
      exact ih agg
    · rw [if_neg hch]
      have hd := drain_spec w o h (agg ++ ch)
      obtain ⟨hd1, hd2, hd3, hd4, hd5, hd6⟩ := hd
      refine ⟨?_, ?_⟩
      · intro win hwin
        rcases List.mem_append.mp hwin with hwin | hwin
        · exact hd1 win hwin
        · exact (ih _).1 win hwin
      · rw [List.chain'_append]
        refine ⟨hd2, (ih _).2, ?_⟩
        intro x hx y hy
        obtain ⟨hx1, hx2⟩ := hd4 x hx
        have := stream_head w o h chs (drain w (w - o) (agg ++ ch)).2 hx2 y hy
        rw [hx1, ← this]

theorem lastN_lastN_append {α : Type} (n : ℕ) (l m : List α) (h : n ≤ l.length) :
    lastN n (lastN n l ++ m) = lastN n (l ++ m) := by
  unfold lastN
  rw [← List.drop_append_of_le_length (by omega)]
  rw [List.drop_drop]
  congr 1
  simp only [List.length_drop, List.length_append]
  omega

theorem read_loop_spec {α : Type} (n : ℕ) (chunks : List (List α)) :
    ∀ buf : List α, buf.length = n →
      (read_loop n buf chunks).length = n ∧
      read_loop n buf chunks = lastN n (buf ++ chunks.flatten) := by
  induction chunks with
  | nil =>
    intro buf h
    refine ⟨h, ?_⟩
    unfold read_loop lastN
    simp [h]
  | cons c cs ih =>
    intro buf h
    have hstep : (read_step n buf c).length = n := by
      unfold read_step lastN
      simp only [List.length_drop, List.length_append]
      omega
    have hrec := ih (read_step n buf c) hstep
    have hfold : read_loop n buf (c :: cs) = read_loop n (read_step n buf c) cs := rfl
    refine ⟨by rw [hfold, hrec.1], ?_⟩
    rw [hfold, hrec.2]
    unfold read_step
    rw [lastN_lastN_append n (buf ++ c) _ (by simp only [List.length_append]; omega)]
    simp [List.append_assoc]

theorem play_ratios_mem_bounds :
    ∀ (vs : List ℚ), (∀ v ∈ vs, 0 ≤ v) → ∀ vmax, 0 ≤ vmax →
      ∀ r ∈ (play_ratios vs vmax).1, 0 ≤ r ∧ r ≤ 1 := by
  intro vs
  induction vs with
  | nil => intro _ vmax _ r hr; simp [play_ratios] at hr
  | cons v vs ih =>
    intro hv vmax hm r hr
    have hv0 : 0 ≤ v := hv v (List.mem_cons_self v vs)
    by_cases hz : max v vmax = 0
    · simp [play_ratios, hz] at hr
    · simp only [play_ratios, if_neg hz, List.mem_cons] at hr
      have hmpos : 0 < max v vmax :=
        lt_of_le_of_ne (le_trans hv0 (le_max_left v vmax)) (Ne.symm hz)
      rcases hr with hr | hr
      · subst hr
        exact ⟨div_nonneg hv0 hmpos.le, (div_le_one hmpos).mpr (le_max_left v vmax)⟩
      · exact ih (fun u hu => hv u (List.mem_cons_of_mem v hu))
          (max v vmax) hmpos.le r hr

theorem play_ratios_ok_of_pos :
    ∀ (vs : List ℚ) (vmax : ℚ), 0 < vmax → (play_ratios vs vmax).2 = false := by
  intro vs
  induction vs with
  | nil => intro vmax _; rfl
  | cons v vs ih =>
    intro vmax hm
    have hmpos : 0 < max v vmax := lt_of_lt_of_le hm (le_max_right v vmax)
    simp only [play_ratios, if_neg (ne_of_gt hmpos)]
    exact ih (max v vmax) hmpos

theorem play_maxes_head :
    ∀ (vs : List ℚ) (vmax : ℚ), ∀ y ∈ (play_maxes vs vmax).head?, vmax ≤ y := by
  intro vs vmax y hy
  cases vs with
  | nil => simp [play_maxes] at hy
  | cons v vs =>
    simp only [play_maxes, List.head?_cons, Option.mem_def,
      Option.some.injEq] at hy
    subst hy
    exact le_max_right v vmax

theorem play_maxes_chain :
    ∀ (vs : List ℚ) (vmax : ℚ), List.Chain' (· ≤ ·) (play_maxes vs vmax) := by
  intro vs
  induction vs with
  | nil => intro vmax; simp [play_maxes]
  | cons v vs ih =>
    intro vmax
    simp only [play_maxes, List.chain'_cons']
    exact ⟨play_maxes_head vs (max v vmax), ih (max v vmax)⟩

theorem stop_reading_ok (s : ReaderLife) (tid : ℕ) (h : s.thread = some tid) :
    stop_reading s = Except.ok
      { s with stop_event := true, running := s.running.erase tid } := by
  rw [stop_reading, h]

theorem tone_pushes_length :
    ∀ (vs : List ℚ), (∀ v ∈ vs, 0 < v) → ∀ vmax, 0 ≤ vmax →
      (tone_pushes vs vmax).length = vs.length := by
  intro vs
  induction vs with
  | nil => intro _ vmax _; rfl
  | cons v vs ih =>
    intro hv vmax hm
    have hvpos : 0 < v := hv v (List.mem_cons_self v vs)
    have hmpos : 0 < max v vmax := lt_of_lt_of_le hvpos (le_max_left v vmax)
    simp only [tone_pushes, if_neg (ne_of_gt hmpos), List.length_cons]
    rw [ih (fun u hu => hv u (List.mem_cons_of_mem v hu)) (max v vmax) hmpos.le]

end Neuros

namespace NeurosClaims
open Neuros

/-- C1: Overlap identity law.  For every window size w and overlap o with
o < w (as convert_to_samples guarantees) and every sequence of appended
chunks of arbitrary sizes, every window stream_windows emits has exactly w
columns and every pair of consecutive windows satisfies that the trailing
o columns of the earlier window equal the leading o columns of the next
window; moreover each emission step of the inner loop copies the first w
columns of the accumulator and then evicts stride = w - o columns from its
front. -/
theorem stream_windows_overlap_identity {α : Type} (w o : ℕ) (h : o < w)
    (chunks : List (List α)) :
    (∀ win ∈ stream_windows w (w - o) chunks [], win.length = w) ∧
    List.Chain' (fun a b => a.drop (w - o) = b.take o)
      (stream_windows w (w - o) chunks []) ∧
    (∀ agg : List α, w ≤ agg.length →
      drain w (w - o) agg =
        (agg.take w :: (drain w (w - o) (agg.drop (w - o))).1,
         (drain w (w - o) (agg.drop (w - o))).2)) := by
  obtain ⟨h1, h2⟩ := stream_spec w o h chunks []
  refine ⟨h1, h2, ?_⟩
  intro agg hw
  rw [drain, dif_pos ⟨by omega, by omega, hw⟩]

/-- Witness for C1 at w = 3, o = 1 (stride 2) on the chunk sequence
[[0,1],[2,3],[4,5]] of natural-number columns. -/
theorem stream_windows_overlap_identity_witness :
    1 < 3 ∧
    ((∀ win ∈ stream_windows 3 (3 - 1) [[0,1],[2,3],[4,5]] ([] : List ℕ),
        win.length = 3) ∧
      List.Chain' (fun a b => a.drop (3 - 1) = b.take 1)
        (stream_windows 3 (3 - 1) [[0,1],[2,3],[4,5]] ([] : List ℕ)) ∧
      (∀ agg : List ℕ, 3 ≤ agg.length →
        drain 3 (3 - 1) agg =
          (agg.take 3 :: (drain 3 (3 - 1) (agg.drop (3 - 1))).1,
           (drain 3 (3 - 1) (agg.drop (3 - 1))).2))) :=
  ⟨by norm_num, stream_windows_overlap_identity 3 1 (by norm_num) [[0,1],[2,3],[4,5]]⟩

/-- C2 counterexample: at sample rate 250 with window_ms = 550 (a config
that passes construction), the code's conversion yields window_samples =
int(137.5) = 137, while rounding to the nearest integer — which the claim
asserts — yields 138.  convert_to_samples truncates, it does not round. -/
theorem convert_to_samples_not_round :
    WindowConfig.mk_checked 550 225 = Except.ok ⟨550, 225⟩ ∧
    WindowConfig.convert_to_samples ⟨550, 225⟩ 250 = Except.ok (137, 56) ∧
    round ((250 : ℚ) * 550 / 1000) = 138 ∧ (137 : ℤ) ≠ 138 := by
  refine ⟨?_, ?_, ?_, by norm_num⟩
  · norm_num [WindowConfig.mk_checked]
  · norm_num [WindowConfig.convert_to_samples, Int.floor_eq_iff]
  · rw [round_eq]
    norm_num [Int.floor_eq_iff]

/-- C2 amended: for every WindowConfig that passed construction and every
sample rate, convert_to_samples returns window_samples =
⌊rate * window_ms / 1000⌋ and overlap_samples = ⌊rate * overlap_ms / 1000⌋
(int() truncation, which equals the floor on these non-negative products),
and it fails with a config error exactly when, after this conversion,
overlap_samples ≥ window_samples. -/
theorem convert_to_samples_truncates (wms oms : ℚ) (rate : ℕ)
    (cfg : WindowConfig)
    (h : WindowConfig.mk_checked wms oms = Except.ok cfg) :
    cfg.window_ms = wms ∧ cfg.overlap_ms = oms ∧
    (⌊(rate : ℚ) * oms / 1000⌋ < ⌊(rate : ℚ) * wms / 1000⌋ →
      cfg.convert_to_samples rate =
        Except.ok (⌊(rate : ℚ) * wms / 1000⌋, ⌊(rate : ℚ) * oms / 1000⌋)) ∧
    (⌊(rate : ℚ) * wms / 1000⌋ ≤ ⌊(rate : ℚ) * oms / 1000⌋ →
      cfg.convert_to_samples rate =
        Except.error "Overlap must be less than window size") := by
  have hcfg : cfg = ⟨wms, oms⟩ := by
    unfold WindowConfig.mk_checked at h
    split_ifs at h
    exact (Except.ok.inj h).symm
  subst hcfg
  refine ⟨rfl, rfl, ?_, ?_⟩
  · intro hlt
    simp only [WindowConfig.convert_to_samples]
    rw [if_neg (by omega)]
  · intro hle
    simp only [WindowConfig.convert_to_samples]
    rw [if_pos (by omega)]

/-- Witness for C2's amended theorem at window_ms = 550, overlap_ms = 225,
rate = 250: the conversion succeeds and returns the floors (137, 56). -/
theorem convert_to_samples_truncates_witness :
    WindowConfig.mk_checked 550 225 = Except.ok ⟨550, 225⟩ ∧
    ⌊(250 : ℚ) * 225 / 1000⌋ < ⌊(250 : ℚ) * 550 / 1000⌋ ∧
    WindowConfig.convert_to_samples ⟨550, 225⟩ 250 =
      Except.ok (⌊(250 : ℚ) * 550 / 1000⌋, ⌊(250 : ℚ) * 225 / 1000⌋) :=
  ⟨by norm_num [WindowConfig.mk_checked],
   by norm_num [Int.floor_eq_iff],
   (convert_to_samples_truncates 550 225 250 ⟨550, 225⟩
      (by norm_num [WindowConfig.mk_checked])).2.2.1
     (by norm_num [Int.floor_eq_iff])⟩

/-- C3 counterexample: for rate 250 samples/s and a 0.55 s window (a valid
BoardReaderParams: the window exceeds the default 50 ms polling interval),
the code's capacity is int(137.5) + 1 = 138, while the claimed formula
ceil(rate * window_seconds) + 1 gives 139. -/
theorem get_num_samples_not_ceil :
    get_num_samples 250 (55 / 100) = 138 ∧
    ⌈(250 : ℚ) * (55 / 100)⌉ + 1 = 139 ∧ (138 : ℤ) ≠ 139 := by
  refine ⟨?_, ?_, by norm_num⟩
  · unfold get_num_samples
    norm_num [Int.floor_eq_iff]
  · have hc : ⌈(250 : ℚ) * (55 / 100)⌉ = 138 := by
      rw [Int.ceil_eq_iff]
      norm_num
    rw [hc]
    norm_num

/-- C3 amended: the BoardReader's rolling buffer has fixed capacity
exactly int(rate * window_seconds) + 1 = ⌊rate * window_seconds⌋ + 1
rows per channel (truncation, not ceiling), and this capacity is an
invariant: after any sequence of appends by the polling loop, including
appends totaling more than the capacity, the per-channel length stays
equal to the capacity, with the oldest samples evicted first (the buffer
is always exactly the last capacity-many rows of everything ever held). -/
theorem rolling_snapshot_capacity {α : Type} (rate ws : ℚ) (buf : List α)
    (chunks : List (List α))
    (h : buf.length = (get_num_samples rate ws).toNat) :
    (read_loop (get_num_samples rate ws).toNat buf chunks).length = buf.length ∧
    read_loop (get_num_samples rate ws).toNat buf chunks =
      lastN (get_num_samples rate ws).toNat (buf ++ chunks.flatten) := by
  obtain ⟨h1, h2⟩ := read_loop_spec _ chunks buf h
  exact ⟨by rw [h1, h], h2⟩

/-- Witness for C3's amended theorem: rate 2, window 1 s, capacity 3,
initial zero buffer of length 3, two appended chunks totaling 5 rows. -/
theorem rolling_snapshot_capacity_witness :
    ([0, 0, 0] : List ℕ).length = (get_num_samples 2 1).toNat ∧
    ((read_loop (get_num_samples 2 1).toNat [0, 0, 0]
        [[1, 2], [3, 4, 5]]).length = ([0, 0, 0] : List ℕ).length ∧
      read_loop (get_num_samples 2 1).toNat [0, 0, 0] [[1, 2], [3, 4, 5]] =
        lastN (get_num_samples 2 1).toNat
          (([0, 0, 0] : List ℕ) ++ [[1, 2], [3, 4, 5]].flatten)) :=
  by
  have h3 : (get_num_samples 2 1).toNat = 3 := by
    have he : get_num_samples 2 1 = 3 := by
      unfold get_num_samples
      norm_num
    rw [he]
    rfl
  exact ⟨by rw [h3]; rfl, rolling_snapshot_capacity 2 1 [0, 0, 0] [[1, 2], [3, 4, 5]]
    (by rw [h3]; rfl)⟩

/-- C5 counterexample: the pull sequence (fatal error, then a chunk with
one column) still yields a window after the fatal error — the generator's
handler is except Exception, which absorbs fatal source errors exactly
like transient ones, so a fatal error neither propagates nor terminates
the sequence of windows. -/
theorem fatal_error_does_not_terminate_stream :
    stream_windows_pulls 1 1
        [Except.error SourceErr.fatal, Except.ok [(0 : ℚ)]] [] = [[0]] ∧
    ([[(0 : ℚ)]] : List (List ℚ)) ≠ [] := by
  refine ⟨?_, by simp⟩
  simp [stream_windows_pulls, drain]

/-- C5 amended: for every source, every source error — transient or fatal
alike — is absorbed (logged and retried indefinitely, never surfaced to
the caller of the stream): the emitted windows are exactly those of the
error-free stream over the successful pulls, so no error kind terminates
the sequence. -/
theorem stream_windows_absorbs_all_errors {α : Type} (w needed : ℕ)
    (pulls : List (Except SourceErr (List α))) (agg : List α) :
    stream_windows_pulls w needed pulls agg =
      stream_windows w needed (okChunks pulls) agg := by
  induction pulls generalizing agg with
  | nil => rfl
  | cons p ps ih =>
    cases p with
    | error e =>
      have hok : okChunks (Except.error e :: ps) = okChunks (α := α) ps := by
        unfold okChunks
        simp [List.filterMap_cons, Except.toOption]
      rw [hok]
      show stream_windows_pulls w needed ps agg = _
      exact ih agg
    | ok ch =>
      have hok : okChunks (Except.ok ch :: ps) = ch :: okChunks ps := by
        unfold okChunks
        simp [List.filterMap_cons, Except.toOption]
      rw [hok]
      show (if ch.isEmpty then stream_windows_pulls w needed ps agg
        else (drain w needed (agg ++ ch)).1 ++
          stream_windows_pulls w needed ps (drain w needed (agg ++ ch)).2) = _
      rw [stream_windows]
      by_cases hch : ch.isEmpty
      · rw [if_pos hch, if_pos hch, ih]
      · rw [if_neg hch, if_neg hch, ih]

/-- C4: Cache law.  A second call to get_eeg_power with no intervening
sensor activity (the dirty flag not set between the calls) performs no
analysis and returns the identical cached power table with the state
unchanged; when the dirty flag is set, the call computes band power for
every channel × band pair from the current raw data, stores the fresh
table, clears the dirty flag, and returns the fresh table; when it is
clear, the call returns the cached table and touches nothing. -/
theorem get_eeg_power_cache {σ : Type} (get_psd : List ℚ → σ)
    (get_band_power : σ → Band → ℚ) (channels : List ℕ) (num_samples : ℕ)
    (s : BoardState) :
    (get_eeg_power get_psd get_band_power channels num_samples
        (get_eeg_power get_psd get_band_power channels num_samples s).2 =
      ((get_eeg_power get_psd get_band_power channels num_samples s).1,
       (get_eeg_power get_psd get_band_power channels num_samples s).2)) ∧
    (s.update = false →
      get_eeg_power get_psd get_band_power channels num_samples s =
        (s.pdata, s)) ∧
    (s.update = true →
      (get_eeg_power get_psd get_band_power channels num_samples s).2.update
          = false ∧
      (get_eeg_power get_psd get_band_power channels num_samples s).2.rdata
          = s.rdata ∧
      (get_eeg_power get_psd get_band_power channels num_samples s).2.pdata
          = (get_eeg_power get_psd get_band_power channels num_samples s).1 ∧
      (get_eeg_power get_psd get_band_power channels num_samples s).1 =
        bands_list.map (fun b => channels.map (fun c =>
          get_band_power
            (get_psd ((column s.rdata c).take (even_size num_samples))) b))) := by
  cases hb : s.update with
  | false =>
    have h1 : get_eeg_power get_psd get_band_power channels num_samples s =
        (s.pdata, s) := by
      rw [get_eeg_power, if_pos hb]
    refine ⟨?_, fun _ => h1, fun hcontra => Bool.noConfusion hcontra⟩
    rw [h1]
    rw [get_eeg_power, if_pos hb]
  | true =>
    have h1 : get_eeg_power get_psd get_band_power channels num_samples s =
        (bands_list.map (fun b =>
            (channels.map (fun c =>
              get_psd ((column s.rdata c).take (even_size num_samples)))).map
              (fun p => get_band_power p b)),
         { update := false, rdata := s.rdata,
           pdata := bands_list.map (fun b =>
            (channels.map (fun c =>
              get_psd ((column s.rdata c).take (even_size num_samples)))).map
              (fun p => get_band_power p b)) }) := by
      rw [get_eeg_power, if_neg (by rw [hb]; exact Bool.noConfusion)]
    refine ⟨?_, fun hcontra => Bool.noConfusion hcontra, fun _ => ?_⟩
    · rw [h1, get_eeg_power]
      rw [if_pos rfl]
    · rw [h1]
      refine ⟨rfl, rfl, rfl, ?_⟩
      simp only [List.map_map, Function.comp_def]

/-- Witness for C4 at a concrete dirty state: one channel, two raw rows,
the power spectral density modelled as the sample list itself and band
power as its length. -/
theorem get_eeg_power_cache_witness :
    (BoardState.mk true [[1], [2]] []).update = true ∧
    ((get_eeg_power (fun l : List ℚ => l) (fun p _ => (p.length : ℚ)) [0] 2
        (BoardState.mk true [[1], [2]] [])).2.update = false ∧
      (get_eeg_power (fun l : List ℚ => l) (fun p _ => (p.length : ℚ)) [0] 2
        (BoardState.mk true [[1], [2]] [])).2.rdata = [[1], [2]] ∧
      (get_eeg_power (fun l : List ℚ => l) (fun p _ => (p.length : ℚ)) [0] 2
        (BoardState.mk true [[1], [2]] [])).2.pdata =
        (get_eeg_power (fun l : List ℚ => l) (fun p _ => (p.length : ℚ)) [0] 2
          (BoardState.mk true [[1], [2]] [])).1 ∧
      (get_eeg_power (fun l : List ℚ => l) (fun p _ => (p.length : ℚ)) [0] 2
        (BoardState.mk true [[1], [2]] [])).1 =
        bands_list.map (fun _ => [0].map (fun c =>
          ((((column [[1], [2]] c).take (even_size 2)).length : ℕ) : ℚ)))) :=
  ⟨rfl,
   (get_eeg_power_cache (fun l : List ℚ => l) (fun p _ => (p.length : ℚ)) [0] 2
      (BoardState.mk true [[1], [2]] [])).2.2 rfl⟩

/-- C6 counterexample: starting a fresh reader twice without stopping
leaves two polling threads running and replaces the stored handle (thread
0's handle is discarded in favor of thread 1's), contradicting the claimed
no-op behavior of a second start_reading. -/
theorem start_reading_twice_spawns_two_threads :
    (start_reading (start_reading ReaderLife.init)).running = [1, 0] ∧
    (start_reading (start_reading ReaderLife.init)).running.length = 2 ∧
    (start_reading ReaderLife.init).thread = some 0 ∧
    (start_reading (start_reading ReaderLife.init)).thread = some 1 ∧
    (some 1 : Option ℕ) ≠ some 0 :=
  ⟨rfl, rfl, rfl, rfl, by simp⟩

/-- C6 amended: start_reading is never a no-op: every call, including a
call made while the reader is already reading, spawns exactly one
additional polling thread and overwrites the stored handle with the new
thread's handle, discarding the handle to the previously spawned thread. -/
theorem start_reading_always_spawns (s : ReaderLife) :
    (start_reading s).running = s.next_thread :: s.running ∧
    (start_reading s).running.length = s.running.length + 1 ∧
    (start_reading s).thread = some s.next_thread :=
  ⟨rfl, by simp [start_reading], rfl⟩

/-- C7 counterexample: stop_reading on a reader that was never started
raises AttributeError (self.thread does not exist); Tone.stop on a tone
whose start was never called raises RuntimeError (joining an unstarted
thread); and a double Tone.stop after a start sends noteoff to the
synthesizer a second time. -/
theorem stop_when_never_started_raises :
    (∃ msg, stop_reading ReaderLife.init = Except.error msg) ∧
    (tone_stop ToneLife.init).2 = true ∧
    (tone_stop (tone_stop (tone_start ToneLife.init)).1).1.noteoff_count = 2 :=
  ⟨⟨_, rfl⟩, rfl, rfl⟩

/-- C7 amended: after a successful start, stopping twice raises no error
on either BoardReader (joining the already-exited thread is a no-op, and
stop_reading never touches the source handle — the session is released
once, inside the reader thread) or Tone, though each Tone.stop does send
noteoff to the synthesizer again; stop_reading on a reader that was never
started raises AttributeError, and Tone.stop before start raises
RuntimeError on the join. -/
theorem double_stop_after_start_safe (r : ReaderLife) (t : ToneLife)
    (hr : r.thread.isSome = true) (ht : t.thread_started = true) :
    (∃ r1, stop_reading r = Except.ok r1 ∧
      ∃ r2, stop_reading r1 = Except.ok r2) ∧
    (tone_stop t).2 = false ∧
    (tone_stop (tone_stop t).1).2 = false ∧
    (tone_stop (tone_stop t).1).1.noteoff_count = t.noteoff_count + 2 := by
  obtain ⟨tid, htid⟩ := Option.isSome_iff_exists.mp hr
  refine ⟨?_, ?_, ?_, rfl⟩
  · exact ⟨_, stop_reading_ok r tid htid, _, stop_reading_ok _ tid htid⟩
  · simp [tone_stop, ht]
  · simp [tone_stop, ht]

/-- Witness for C7's amended theorem on a freshly started reader and
tone. -/
theorem double_stop_after_start_safe_witness :
    (start_reading ReaderLife.init).thread.isSome = true ∧
    (tone_start ToneLife.init).thread_started = true ∧
    ((∃ r1, stop_reading (start_reading ReaderLife.init) = Except.ok r1 ∧
        ∃ r2, stop_reading r1 = Except.ok r2) ∧
      (tone_stop (tone_start ToneLife.init)).2 = false ∧
      (tone_stop (tone_stop (tone_start ToneLife.init)).1).2 = false ∧
      (tone_stop (tone_stop (tone_start ToneLife.init)).1).1.noteoff_count =
        (tone_start ToneLife.init).noteoff_count + 2) :=
  ⟨rfl, rfl,
   double_stop_after_start_safe (start_reading ReaderLife.init)
     (tone_start ToneLife.init) rfl rfl⟩

/-- C8 counterexample: a first observed power value of 0.0 makes
Tone._play_note divide zero by zero — vmax is seeded with 0.0, not with
the first observed value, so max(0.0, 0.0) = 0.0 and the division
v / vmax raises — contradicting the claim that the division is defined
for every observation including a first observed value of 0.0. -/
theorem first_zero_power_divides_by_zero :
    (play_ratios [(0 : ℚ)] 0).2 = true ∧ (play_ratios [(0 : ℚ)] 0).1 = [] := by
  constructor <;> simp [play_ratios]

/-- C8 amended: over any sequence of non-negative observed power values,
every ratio the loop manages to compute lies in [0, 1]; the loop avoids
dividing by zero exactly when the first observed value is nonzero (vmax is
seeded with 0.0 and updated with max before the division, so a nonzero
first observation makes every later divisor positive, while a first
observation of 0.0 divides zero by zero); when the first value is
positive the first ratio equals 1 and the first running maximum equals
that value; and the running maxima never decrease. -/
theorem play_ratios_safe (vs : List ℚ) (hv : ∀ v ∈ vs, 0 ≤ v) :
    (∀ r ∈ (play_ratios vs 0).1, 0 ≤ r ∧ r ≤ 1) ∧
    ((play_ratios vs 0).2 = false ↔ vs.head? ≠ some 0) ∧
    (∀ v tl, vs = v :: tl → 0 < v →
      (play_ratios vs 0).1.head? = some 1 ∧
      (play_maxes vs 0).head? = some v) ∧
    List.Chain' (· ≤ ·) (play_maxes vs 0) := by
  refine ⟨play_ratios_mem_bounds vs hv 0 le_rfl, ?_, ?_, play_maxes_chain vs 0⟩
  · cases vs with
    | nil => simp [play_ratios]
    | cons v tl =>
      have hv0 : 0 ≤ v := hv v (List.mem_cons_self v tl)
      rcases eq_or_lt_of_le hv0 with hz | hpos
      · rw [← hz]
        simp [play_ratios]
      · have hm : max v 0 = v := max_eq_left hv0
        simp only [play_ratios, hm, if_neg (ne_of_gt hpos)]
        rw [play_ratios_ok_of_pos tl v hpos]
        simp [List.head?_cons, ne_of_gt hpos]
  · intro v tl hvs hpos
    subst hvs
    have hm : max v 0 = v := max_eq_left (le_of_lt hpos)
    constructor
    · simp only [play_ratios, hm, if_neg (ne_of_gt hpos), List.head?_cons]
      rw [div_self (ne_of_gt hpos)]
    · simp only [play_maxes, hm, List.head?_cons]

/-- Witness for C8's amended theorem on the spec's concrete scenario: the
power sequence [2, 4, 1, 4]. -/
theorem play_ratios_safe_witness :
    (∀ v ∈ [(2 : ℚ), 4, 1, 4], 0 ≤ v) ∧
    ((∀ r ∈ (play_ratios [(2 : ℚ), 4, 1, 4] 0).1, 0 ≤ r ∧ r ≤ 1) ∧
      ((play_ratios [(2 : ℚ), 4, 1, 4] 0).2 = false ↔
        ([(2 : ℚ), 4, 1, 4] : List ℚ).head? ≠ some 0) ∧
      (∀ v tl, ([(2 : ℚ), 4, 1, 4] : List ℚ) = v :: tl → 0 < v →
        (play_ratios [(2 : ℚ), 4, 1, 4] 0).1.head? = some 1 ∧
        (play_maxes [(2 : ℚ), 4, 1, 4] 0).head? = some v) ∧
      List.Chain' (· ≤ ·) (play_maxes [(2 : ℚ), 4, 1, 4] 0)) :=
  have hv : ∀ v ∈ [(2 : ℚ), 4, 1, 4], 0 ≤ v := by
    intro v hvm
    fin_cases hvm <;> norm_num
  ⟨hv, play_ratios_safe [2, 4, 1, 4] hv⟩

/-- C9: evaluation of the code at the failing input.  On the very first
loop iteration with observed power 2.0 the running maximum becomes
max(2, 0) = 2, the ratio is 2 / 2 = 1, and the control value pushed to
the synthesizer is int(64 + 64 * 1) = 128, which exceeds the valid MIDI
u8 control range [0, 127] required by the claim and the ToneSink
contract.  Every iteration whose value equals the running maximum pushes
this out-of-range 128. -/
theorem play_control_exceeds_127 :
    play_control 2 (max 2 0) = 128 ∧ ¬(128 : ℤ) ≤ 127 ∧
    (play_ratios [(2 : ℚ)] 0).1 = [1] := by
  refine ⟨?_, by norm_num, ?_⟩
  · unfold play_control
    rw [max_eq_left (by norm_num : (0 : ℚ) ≤ 2)]
    norm_num [Int.floor_eq_iff]
  · have hm : max (2 : ℚ) 0 = 2 := max_eq_left (by norm_num)
    simp only [play_ratios, hm]
    norm_num

/-- C10 counterexample: Tone._play_note pushes the computed control value
on every iteration with no comparison against the last pushed value — two
consecutive iterations observing the same power 2.0 compute the same
control value 128 and result in two synthesizer calls, not one. -/
theorem identical_iterations_push_twice :
    tone_pushes [(2 : ℚ), 2] 0 = [128, 128] ∧
    (tone_pushes [(2 : ℚ), 2] 0).length = 2 := by
  have hm : max (2 : ℚ) 0 = 2 := max_eq_left (by norm_num)
  have hm2 : max (2 : ℚ) 2 = 2 := max_self 2
  have hc : play_control 2 2 = 128 := by
    unfold play_control
    norm_num [Int.floor_eq_iff]
  have h : tone_pushes [(2 : ℚ), 2] 0 = [128, 128] := by
    simp only [tone_pushes, hm, hm2, hc]
    norm_num
  exact ⟨h, by rw [h]; rfl⟩

/-- C10 amended: the push-on-change guard does not exist in Tone's
polling loop — Tone._play_note pushes one control value per iteration,
unconditionally, so over any error-free run the number of synthesizer
calls equals the number of iterations; the guard lives only in
ToneGenerator.set_amplitude, which sends a cc if and only if the computed
velocity differs from the stored last one, so a repeated set_amplitude
with the same value sends nothing and leaves the state unchanged. -/
theorem tone_pushes_every_iteration (vs : List ℚ) (hpos : ∀ v ∈ vs, 0 < v)
    (s : ToneGen) (value : ℚ) :
    (tone_pushes vs 0).length = vs.length ∧
    (set_amplitude (set_amplitude s value).1 value).2 = false ∧
    (set_amplitude (set_amplitude s value).1 value).1 =
      (set_amplitude s value).1 := by
  refine ⟨tone_pushes_length vs hpos 0 le_rfl, ?_, ?_⟩
  · by_cases h : ⌊value * 127⌋ = s.current_velocity <;> simp [set_amplitude, h]
  · by_cases h : ⌊value * 127⌋ = s.current_velocity <;> simp [set_amplitude, h]

/-- Witness for C10's amended theorem: the power sequence [2, 2] and a
repeated set_amplitude at amplitude 1/2 from a fresh generator. -/
theorem tone_pushes_every_iteration_witness :
    (∀ v ∈ [(2 : ℚ), 2], 0 < v) ∧
    ((tone_pushes [(2 : ℚ), 2] 0).length = ([(2 : ℚ), 2] : List ℚ).length ∧
      (set_amplitude (set_amplitude (ToneGen.mk false 0) (1/2)).1 (1/2)).2
          = false ∧
      (set_amplitude (set_amplitude (ToneGen.mk false 0) (1/2)).1 (1/2)).1 =
        (set_amplitude (ToneGen.mk false 0) (1/2)).1) :=
  have hv : ∀ v ∈ [(2 : ℚ), 2], 0 < v := by
    intro v hvm
    fin_cases hvm <;> norm_num
  ⟨hv, tone_pushes_every_iteration [2, 2] hv (ToneGen.mk false 0) (1/2)⟩

end NeurosClaims
